import Mathlib

/-!
Shallow embedding of `src/test_task_1/src/emails_validation.py`: email-syntax
validation, domain extraction, whois/MX domain liveness resolution with an
in-run domain cache, CSV snapshot load/save, and the `validate_emails` driver.

Modelling conventions:
* Python strings are Lean `String`s; whitespace, `lower()` and `strip()` are
  modelled over the ASCII character set.
* Python `dict` (insertion-ordered, unique keys) is an association list with
  replace-in-place / append-at-end insertion.
* External collaborators (the whois library, `datetime.fromisoformat`, the DNS
  resolver) are oracle parameters; an exception raised by a collaborator call
  is its oracle returning `none`.
* The CSV files are modelled at the row level (`CacheRow`), one record per
  data row; serialisation details (quoting, header text) are outside the model.
-/

/-- ASCII whitespace, the characters Python's `str.strip` removes and `\s`
matches (restricted to ASCII). -/
def pyWs (c : Char) : Bool :=
  c = ' ' || c = '\t' || c = '\n' || c = '\r' || c = Char.ofNat 11 || c = Char.ofNat 12

/-- Python `str.strip()` on a character list: drop ASCII whitespace from both ends. -/
def pyStripL (l : List Char) : List Char :=
  ((l.dropWhile pyWs).reverse.dropWhile pyWs).reverse

/-- Python `str.strip()`. -/
def pyStrip (s : String) : String := String.mk (pyStripL s.data)

/-- Python `str.lower()` (ASCII). -/
def pyLower (s : String) : String := String.mk (s.data.map Char.toLower)

/-- `VALID_EXTENSIONS = {".csv", ".txt"}` (line 11). -/
def VALID_EXTENSIONS : List String := [".csv", ".txt"]

/-- Python `s.rsplit(".", 1)[-1]`: the substring after the last `'.'`, or the
whole string when it contains no `'.'`. -/
def rsplitLast1 (s : String) : String :=
  String.mk (s.data.reverse.takeWhile (fun c => c != '.')).reverse

/-- `_is_valid_extension` (lines 14-17): lower-case the path, take the part
after the last dot (or the whole path), prepend `"."`, test membership. -/
def _is_valid_extension (path : String) : Bool :=
  let ext := rsplitLast1 (pyLower path)
  VALID_EXTENSIONS.contains ("." ++ ext)

/-- Character class `[^@\s]` of `_email_re` (lines 20-22). -/
def emailChar (c : Char) : Bool := c != '@' && !pyWs c

/-- Split a list at the first occurrence of `ch`: `some (before, after)`, or
`none` when `ch` is absent. Models both the anchor point of the single `@` in
`_email_re` and Python `s.split("@", 1)`. -/
def splitFirst (ch : Char) : List Char → Option (List Char × List Char)
  | [] => none
  | c :: cs =>
    if c = ch then some ([], cs)
    else
      match splitFirst ch cs with
      | none => none
      | some p => some (c :: p.1, p.2)

/-- Whether some position other than the first and the last holds `'.'`:
the `\.` of `[^@\s]+\.[^@\s]+` must have a nonempty class match on each side. -/
def hasInteriorDot (l : List Char) : Bool :=
  ((l.drop 1).dropLast).contains '.'

/-- Executable whole-string matcher for `_email_re`, i.e. the regex
`^[^@\s]+@[^@\s]+\.[^@\s]+$` (lines 20-22): the character classes exclude `@`,
so the `@` of the pattern is the first (and only) `@` of a matching string. -/
def matchEmail (s : String) : Bool :=
  match splitFirst '@' s.data with
  | none => false
  | some (loc, rest) =>
    !loc.isEmpty && loc.all emailChar && !rest.isEmpty && rest.all emailChar &&
      hasInteriorDot rest

/-- `_is_valid_email` (lines 25-35): strip, reject empty, match the regex.
The stripped string has no trailing newline, so the regex `$` is end-of-string. -/
def _is_valid_email (email : String) : Bool :=
  let email := pyStrip email
  if email = "" then false else matchEmail email

/-- `_get_domain` (lines 38-40): `email.strip().split("@", 1)[1].lower()`.
When the address has no `@` the source raises `IndexError`; the spec leaves
that case undefined (callers validate first), modelled here as `""`. -/
def _get_domain (email : String) : String :=
  match splitFirst '@' (pyStrip email).data with
  | some p => pyLower (String.mk p.2)
  | none => ""

/-- A Python `datetime`: `naive` is the wall-clock value in seconds, `tz` the
UTC offset in seconds (`none` = timezone-less). The UTC instant of an aware
datetime is `naive - offset`. -/
structure PyDatetime where
  naive : Int
  tz : Option Int
  deriving DecidableEq, Repr

/-- `exp.replace(tzinfo=timezone.utc)` applied when `exp.tzinfo is None`
(lines 78-79). -/
def pyNormalizeUtc (d : PyDatetime) : PyDatetime :=
  if d.tz = none then { d with tz := some 0 } else d

/-- The UTC instant of an aware datetime, used by Python's `>` on datetimes. -/
def pyInstant (d : PyDatetime) : Int := d.naive - d.tz.getD 0

/-- The Python value found under `"expiration_date"` in a whois response
(absence of the key collapses to `pynone`, as `.get` defaults to `None`). -/
inductive PyVal where
  | pynone
  | dt (d : PyDatetime)
  | str (s : String)
  | list (l : List PyVal)
  | other (truthy : Bool)
  deriving Repr

/-- Python truthiness for the values `_extract_expiration_date` inspects. -/
def pyTruthy : PyVal → Bool
  | PyVal.pynone => false
  | PyVal.dt _ => true
  | PyVal.str s => decide (s ≠ "")
  | PyVal.list l => !l.isEmpty
  | PyVal.other b => b

/-- `_extract_expiration_date` (lines 43-61): `None` for a falsy value; a
nonempty list is replaced by its first element; a string is parsed by
`datetime.fromisoformat` (the `parseIso` oracle, `none` = parse exception)
after `"Z"` is replaced by `"+00:00"`; anything that is not a `datetime` at
the end yields `None`. -/
def _extract_expiration_date (parseIso : String → Option PyDatetime)
    (exp : PyVal) : Option PyDatetime :=
  if pyTruthy exp = false then none
  else
    let exp1 := match exp with
      | PyVal.list (x :: _) => x
      | e => e
    match exp1 with
    | PyVal.str s => parseIso (s.replace "Z" "+00:00")
    | PyVal.dt d => some d
    | _ => none

/-- `_whois_domain` (lines 64-82). `resp` is the outcome of `whois.whois`:
`none` = the call raised, `some w` = the `"expiration_date"` value of the
response. `now` is the current UTC instant (`datetime.now(timezone.utc)`).
Fail-closed: every failure path returns `false`; the function is total. -/
def _whois_domain (parseIso : String → Option PyDatetime) (now : Int)
    (resp : Option PyVal) : Bool :=
  match resp with
  | none => false
  | some w =>
    match _extract_expiration_date parseIso w with
    | none => false
    | some exp => decide (pyInstant (pyNormalizeUtc exp) > now)

/-- `_mx_queries_domain` (lines 85-94). `answers` is the outcome of
`dns.resolver.resolve(domain, "MX")`: `none` = the call raised, `some n` = the
number of records returned. -/
def _mx_queries_domain (answers : Option Nat) : Bool :=
  match answers with
  | none => false
  | some n => decide (n > 0)

/-- A cached `DomainFact`: the per-domain dict value
`{"whois_alive": ..., "mx_exists": ..., "checked_at": ...}`.
`checked_at` is `Option String` so that a dict missing the key (`.get`
returning `None`) is representable; every write in the source sets it. -/
structure DomainFact where
  whois_alive : Bool
  mx_exists : Bool
  checked_at : Option String
  deriving DecidableEq, Repr

/-- The domain cache: a Python dict `domain -> fact`, i.e. an association
list with unique keys in insertion order. -/
abbrev Cache := List (String × DomainFact)

/-- Python `cache[domain]` read / `domain in cache` test: first (only) match. -/
def lookupCache : Cache → String → Option DomainFact
  | [], _ => none
  | p :: rest, d => if p.1 = d then some p.2 else lookupCache rest d

/-- Python `cache[domain] = fact`: replace in place when the key exists,
append at the end otherwise. -/
def dictInsert : Cache → String → DomainFact → Cache
  | [], d, f => [(d, f)]
  | p :: rest, d, f =>
    if p.1 = d then (d, f) :: rest else p :: dictInsert rest d f

/-- One data row of the cache CSV as `csv.DictReader`/`DictWriter` see it:
`none` = the column is absent from the header. -/
structure CacheRow where
  domain : Option String
  whois_alive : Option String
  mx_exists : Option String
  checked_at : Option String
  deriving DecidableEq, Repr

/-- The per-row body of the `_load_domain_cache` loop (lines 110-118):
normalise the domain key, skip rows with an empty key, decode booleans from
the `"1"`/not-`"1"` convention, keep `checked_at` as text. -/
def loadStep (cache : Cache) (row : CacheRow) : Cache :=
  let domain := pyLower (pyStrip (row.domain.getD ""))
  if domain = "" then cache
  else
    dictInsert cache domain
      { whois_alive := decide (row.whois_alive.getD "0" = "1")
        mx_exists := decide (row.mx_exists.getD "0" = "1")
        checked_at := some (row.checked_at.getD "") }

/-- `_load_domain_cache` (lines 97-119) applied to the parsed rows of an
existing snapshot file. (The source returns `{}` when the path is unset or
the file is missing; `validateEmails` below models that guard.) -/
def _load_domain_cache (rows : List CacheRow) : Cache :=
  rows.foldl loadStep []

/-- Boolean encoding used by `_save_domain_cache`: `"1" if b else "0"`. -/
def boolTo10 (b : Bool) : String := if b then "1" else "0"

/-- `info.get("checked_at") or datetime.now(timezone.utc).isoformat()`
(lines 142-143): a falsy stored value (`None` or `""`) is replaced by the
current UTC instant `nowStr`. -/
def savedCheckedAt (c : Option String) (nowStr : String) : String :=
  match c with
  | none => nowStr
  | some s => if s = "" then nowStr else s

/-- The row `_save_domain_cache` writes for one cache entry (lines 136-145). -/
def saveRow (nowStr : String) (p : String × DomainFact) : CacheRow :=
  { domain := some p.1
    whois_alive := some (boolTo10 p.2.whois_alive)
    mx_exists := some (boolTo10 p.2.mx_exists)
    checked_at := some (savedCheckedAt p.2.checked_at nowStr) }

/-- `_save_domain_cache` (lines 122-145): the data rows written for the whole
cache, in dict iteration (= insertion) order. Directory creation and the
header row are I/O outside the model; the unset-path no-op is modelled in
`validateEmails`. -/
def _save_domain_cache (cache : Cache) (nowStr : String) : List CacheRow :=
  cache.map (saveRow nowStr)

/-- One external lookup performed during a run, recorded for call-count
properties. -/
inductive LookupEvent where
  | whoisCall (domain : String)
  | mxCall (domain : String)
  deriving DecidableEq, Repr

/-- The external collaborators, per domain: the whois response (`none` = the
`whois.whois` call raised), the MX answer count (`none` = the resolver
raised), and `datetime.fromisoformat`. -/
structure Oracles where
  whoisResp : String → Option PyVal
  mxAnswers : String → Option Nat
  parseIso : String → Option PyDatetime

/-- Count occurrences of one event in a trace. -/
def countEv (e : LookupEvent) (l : List LookupEvent) : Nat :=
  (l.filter (fun x => x = e)).length

/-- The Resolution Orchestrator: the cache consultation / miss branch of
`_process_email` (lines 163-174). Returns the fact for the domain, the
updated cache, and the trace of external lookups performed. On a miss the
whois lookup always runs; the MX lookup runs only when the domain is alive
(`_mx_queries_domain(domain) if whois_alive else False`), and the fresh fact
is stamped with `nowStr` and written into the cache. -/
def resolveDomain (O : Oracles) (now : Int) (nowStr : String)
    (domain : String) (cache : Cache) : DomainFact × Cache × List LookupEvent :=
  match lookupCache cache domain with
  | some info => (info, cache, [])
  | none =>
    let whois_alive := _whois_domain O.parseIso now (O.whoisResp domain)
    let mx_exists := if whois_alive then _mx_queries_domain (O.mxAnswers domain) else false
    let mxTrace := if whois_alive then [LookupEvent.mxCall domain] else []
    let fact : DomainFact :=
      { whois_alive := whois_alive, mx_exists := mx_exists, checked_at := some nowStr }
    (fact, dictInsert cache domain fact, LookupEvent.whoisCall domain :: mxTrace)

/-- One output row written by `_process_email` (lines 176-183), booleans
encoded as the ints `1`/`0`. -/
structure OutRow where
  email : String
  domain : String
  whois_alive : Nat
  mx_exists : Nat
  deriving DecidableEq, Repr

/-- `_process_email` (lines 148-183): strip, drop syntactically invalid
addresses silently, resolve the domain through the cache, emit one row. -/
def _process_email (O : Oracles) (now : Int) (nowStr : String)
    (email : String) (cache : Cache) : Cache × Option OutRow × List LookupEvent :=
  let email := pyStrip email
  if _is_valid_email email = false then (cache, none, [])
  else
    let domain := _get_domain email
    let r := resolveDomain O now nowStr domain cache
    (r.2.1,
     some { email := email, domain := domain
            whois_alive := if r.1.whois_alive then 1 else 0
            mx_exists := if r.1.mx_exists then 1 else 0 },
     r.2.2)

/-- Everything a completed run produced. -/
structure RunOutput where
  outRows : List OutRow
  finalCache : Cache
  savedRows : Option (List CacheRow)
  events : List LookupEvent
  deriving Repr

/-- `validate_emails` (lines 186-246). The input file is abstracted to the
sequence of address strings its reading loop feeds to `_process_email` (both
the csv and the txt branch reduce to that); `cachePathSet` models whether the
`cached_domains` path is set, `cacheFileRows` whether the snapshot file
exists and its parsed rows. The extension check runs first: an unsupported
extension raises `ValueError` before the cache is loaded, the output file is
created, or any address is processed. -/
def validateEmails (O : Oracles) (now : Int) (nowStr : String)
    (emailsFile : String) (inputEmails : List String)
    (cachePathSet : Bool) (cacheFileRows : Option (List CacheRow)) :
    Except String RunOutput :=
  if _is_valid_extension emailsFile = false then
    Except.error "Входной файл должен быть .csv/.txt"
  else
    let domainCache :=
      if cachePathSet then
        match cacheFileRows with
        | some rows => _load_domain_cache rows
        | none => []
      else []
    let final := inputEmails.foldl
      (fun st email =>
        let r := _process_email O now nowStr email st.1
        (r.1, st.2.1 ++ r.2.1.toList, st.2.2 ++ r.2.2))
      ((domainCache, [], []) : Cache × List OutRow × List LookupEvent)
    Except.ok
      { outRows := final.2.1
        finalCache := final.1
        savedRows := if cachePathSet then some (_save_domain_cache final.1 nowStr) else none
        events := final.2.2 }

/-- The §3 DomainFact invariant: dead domain ⟹ no trusted MX. -/
def FactInv (f : DomainFact) : Prop := f.whois_alive = false → f.mx_exists = false

/-- The invariant over a whole cache. -/
def CacheInv (c : Cache) : Prop := ∀ p ∈ c, FactInv p.2

/-- Declarative reading of `_email_re`: some decomposition
`l ++ "@" ++ m ++ "." ++ r` with `l`, `m`, `r` nonempty runs of `[^@\s]`. -/
def EmailPattern (s : String) : Prop :=
  ∃ l m r : List Char,
    s.data = l ++ '@' :: (m ++ '.' :: r) ∧ l ≠ [] ∧ m ≠ [] ∧ r ≠ [] ∧
    (∀ c ∈ l, emailChar c = true) ∧ (∀ c ∈ m, emailChar c = true) ∧
    (∀ c ∈ r, emailChar c = true)

/-- A fixed all-failing oracle assignment (every collaborator call raises). -/
def O0 : Oracles :=
  { whoisResp := fun _ => none, mxAnswers := fun _ => none, parseIso := fun _ => none }

/-- A snapshot row that decodes to a fact violating the §3 invariant. -/
def badRow : CacheRow :=
  { domain := some "b.com", whois_alive := some "0", mx_exists := some "1",
    checked_at := some "2024-01-01T00:00:00+00:00" }

/-- The fact obtained by decoding `saveRow nowStr (d, f)` back through
`loadStep`: the booleans survive the `"1"`/`"0"` encoding exactly;
`checked_at` becomes the saved text. -/
def roundFact (f : DomainFact) (nowStr : String) : DomainFact :=
  { whois_alive := f.whois_alive, mx_exists := f.mx_exists,
    checked_at := some (savedCheckedAt f.checked_at nowStr) }

theorem takeWhile_of_all (p : Char → Bool) : ∀ l : List Char,
    (∀ c ∈ l, p c = true) → l.takeWhile p = l := by
  intro l h
  induction l with
  | nil => rfl
  | cons c t ih =>
    have hc : p c = true := h c (List.mem_cons_self c t)
    rw [List.takeWhile_cons, if_pos hc]
    exact congrArg (c :: ·) (ih (fun x hx => h x (List.mem_cons_of_mem c hx)))

theorem takeWhile_append_stop (p : Char → Bool) (x : Char) :
    ∀ u v : List Char, (∀ c ∈ u, p c = true) → p x = false →
    (u ++ x :: v).takeWhile p = u := by
  intro u v hu hx
  induction u with
  | nil => simp [List.takeWhile_cons, hx]
  | cons c t ih =>
    have hc : p c = true := hu c (List.mem_cons_self c t)
    rw [List.cons_append, List.takeWhile_cons, if_pos hc]
    exact congrArg (c :: ·) (ih (fun y hy => hu y (List.mem_cons_of_mem c hy)))

theorem lookupCache_dictInsert_self (c : Cache) (d : String) (f : DomainFact) :
    lookupCache (dictInsert c d f) d = some f := by
  induction c with
  | nil => simp [dictInsert, lookupCache]
  | cons p rest ih =>
    by_cases h : p.1 = d
    · simp [dictInsert, h, lookupCache]
    · simp [dictInsert, h, lookupCache, ih]

theorem lookupCache_eq_none_iff (c : Cache) (d : String) :
    lookupCache c d = none ↔ ∀ p ∈ c, p.1 ≠ d := by
  induction c with
  | nil => simp [lookupCache]
  | cons p rest ih =>
    by_cases h : p.1 = d <;> simp [lookupCache, h, ih]

theorem dictInsert_fresh (c : Cache) (d : String) (f : DomainFact)
    (h : ∀ p ∈ c, p.1 ≠ d) : dictInsert c d f = c ++ [(d, f)] := by
  induction c with
  | nil => rfl
  | cons p rest ih =>
    have hp : p.1 ≠ d := h p (List.mem_cons_self p rest)
    simp only [dictInsert, if_neg hp, List.cons_append, List.cons.injEq, true_and]
    exact ih (fun q hq => h q (List.mem_cons_of_mem p hq))

theorem cacheInv_dictInsert {c : Cache} {d : String} {f : DomainFact}
    (hc : CacheInv c) (hf : FactInv f) : CacheInv (dictInsert c d f) := by
  induction c with
  | nil =>
    intro q hq
    simp [dictInsert] at hq
    rw [hq]
    exact hf
  | cons p rest ih =>
    have hcrest : CacheInv rest := fun q hq => hc q (List.mem_cons_of_mem p hq)
    by_cases h : p.1 = d
    · intro q hq
      simp [dictInsert, h] at hq
      rcases hq with hq | hq
      · rw [hq]; exact hf
      · exact hc q (List.mem_cons_of_mem p hq)
    · intro q hq
      simp only [dictInsert, if_neg h] at hq
      rcases List.mem_cons.mp hq with hq | hq
      · rw [hq]; exact hc p (List.mem_cons_self p rest)
      · exact ih hcrest q hq

/-- Claim C8: `validate_emails` accepts exactly the `.csv`/`.txt` extensions
(case-insensitively, as computed by `_is_valid_extension`); for any other
input path it raises the `ValueError` before the cache is loaded, the output
file is created, or any address or lookup is processed — in the model, the
run result is the error and nothing else is produced. -/
theorem C8_extension_checked_first (O : Oracles) (now : Int) (nowStr : String)
    (f : String) (inputEmails : List String) (cps : Bool)
    (cfr : Option (List CacheRow)) :
    validateEmails O now nowStr f inputEmails cps cfr =
      Except.error "Входной файл должен быть .csv/.txt" ↔
    _is_valid_extension f = false := by
  unfold validateEmails
  cases h : _is_valid_extension f <;> simp [h]

/-- Claim C9: the extension check looks at the substring after the last `'.'`
of the (lower-cased) path, or at the whole path when it has no `'.'`; hence a
path literally named `txt` or `csv` — with no extension at all — passes the
check. -/
theorem C9_extension_from_last_dot :
    (∀ a b : List Char, '.' ∉ b →
      rsplitLast1 (String.mk (a ++ '.' :: b)) = String.mk b) ∧
    (∀ l : List Char, '.' ∉ l → rsplitLast1 (String.mk l) = String.mk l) ∧
    _is_valid_extension "txt" = true ∧ _is_valid_extension "csv" = true ∧
    _is_valid_extension "report.pdf" = false := by
  refine ⟨?_, ?_, by decide, by decide, by decide⟩
  · intro a b hb
    have hstop : (('.' : Char) != '.') = false := by decide
    have hall : ∀ c ∈ b.reverse, (c != '.') = true := by
      intro c hc
      exact bne_iff_ne.mpr (fun he => hb (he ▸ List.mem_reverse.mp hc))
    unfold rsplitLast1
    simp only [List.reverse_append, List.reverse_cons, List.append_assoc,
      List.nil_append, List.singleton_append]
    rw [takeWhile_append_stop _ _ _ _ hall hstop, List.reverse_reverse]
  · intro l hl
    have hall : ∀ c ∈ l.reverse, (c != '.') = true := by
      intro c hc
      exact bne_iff_ne.mpr (fun he => hl (he ▸ List.mem_reverse.mp hc))
    unfold rsplitLast1
    rw [takeWhile_of_all _ _ hall, List.reverse_reverse]

theorem C9_extension_from_last_dot_witness :
    rsplitLast1 (String.mk ("file".data ++ '.' :: "csv".data)) = String.mk "csv".data ∧
    rsplitLast1 (String.mk "txt".data) = String.mk "txt".data :=
  ⟨C9_extension_from_last_dot.1 "file".data "csv".data (by decide),
   C9_extension_from_last_dot.2.1 "txt".data (by decide)⟩

theorem lookupCache_some_mem (c : Cache) (d : String) (f : DomainFact)
    (h : lookupCache c d = some f) : ∃ p ∈ c, p.2 = f := by
  induction c with
  | nil => simp [lookupCache] at h
  | cons p rest ih =>
    by_cases hp : p.1 = d
    · simp [lookupCache, hp] at h
      exact ⟨p, List.mem_cons_self p rest, h⟩
    · simp only [lookupCache, if_neg hp] at h
      obtain ⟨q, hq, hqf⟩ := ih h
      exact ⟨q, List.mem_cons_of_mem p hq, hqf⟩

theorem resolve_keeps_inv (O : Oracles) (now : Int) (nowStr : String)
    (d : String) (cache : Cache) (h : CacheInv cache) :
    FactInv (resolveDomain O now nowStr d cache).1 ∧
    CacheInv (resolveDomain O now nowStr d cache).2.1 := by
  cases hl : lookupCache cache d with
  | some f =>
    obtain ⟨p, hp, hpf⟩ := lookupCache_some_mem cache d f hl
    refine ⟨?_, ?_⟩
    · simp only [resolveDomain, hl]
      exact hpf ▸ h p hp
    · simp only [resolveDomain, hl]
      exact h
  | none =>
    cases hw : _whois_domain O.parseIso now (O.whoisResp d) with
    | false =>
      refine ⟨?_, ?_⟩
      · simp [resolveDomain, hl, hw, FactInv]
      · simp only [resolveDomain, hl, hw]
        exact cacheInv_dictInsert h (by simp [FactInv])
    | true =>
      refine ⟨?_, ?_⟩
      · simp [resolveDomain, hl, hw, FactInv]
      · simp only [resolveDomain, hl, hw]
        exact cacheInv_dictInsert h (by simp [FactInv])

/-- Claim C1, as stated, is refuted at a concrete input: `_load_domain_cache`
decodes `whois_alive` and `mx_exists` independently and enforces nothing, so
the snapshot row `b.com,0,1,...` (`badRow`) loads as a fact with
`whois_alive = false` and `mx_exists = true`; a cache hit returns that fact
unchanged and the output row echoes it. -/
theorem C1_counterexample :
    (resolveDomain O0 0 "t" "b.com" (_load_domain_cache [badRow])).1.whois_alive = false ∧
    (resolveDomain O0 0 "t" "b.com" (_load_domain_cache [badRow])).1.mx_exists = true ∧
    (_process_email O0 0 "t" "x@b.com" (_load_domain_cache [badRow])).2.1 =
      some { email := "x@b.com", domain := "b.com", whois_alive := 0, mx_exists := 1 } := by
  decide

/-- Claim C1 (amended): the invariant `whois_alive = false → mx_exists = false`
holds for every fact the Orchestrator computes by fresh lookups, and it is
preserved by resolution and row emission — every returned fact, every cache
entry, and every output row satisfies it — provided every entry of the initial
cache (e.g. a snapshot produced by `_save_domain_cache`) already satisfies it;
`_load_domain_cache` itself does not enforce it on snapshot rows. -/
theorem C1_invariant_preserved (O : Oracles) (now : Int) (nowStr : String)
    (d e : String) (cache : Cache) (h : CacheInv cache) :
    FactInv (resolveDomain O now nowStr d cache).1 ∧
    CacheInv (resolveDomain O now nowStr d cache).2.1 ∧
    CacheInv (_process_email O now nowStr e cache).1 ∧
    (∀ row, (_process_email O now nowStr e cache).2.1 = some row →
      row.whois_alive = 0 → row.mx_exists = 0) := by
  refine ⟨(resolve_keeps_inv O now nowStr d cache h).1,
          (resolve_keeps_inv O now nowStr d cache h).2, ?_, ?_⟩
  · by_cases hv : _is_valid_email (pyStrip e) = false
    · simpa [_process_email, hv] using h
    · simpa [_process_email, hv] using
        (resolve_keeps_inv O now nowStr (_get_domain (pyStrip e)) cache h).2
  · intro row hrow h0
    by_cases hv : _is_valid_email (pyStrip e) = false
    · simp [_process_email, hv] at hrow
    · simp [_process_email, hv] at hrow
      have hf := (resolve_keeps_inv O now nowStr (_get_domain (pyStrip e)) cache h).1
      cases hfw : (resolveDomain O now nowStr (_get_domain (pyStrip e)) cache).1.whois_alive with
      | false =>
        have hmx := hf hfw
        rw [← hrow] at h0 ⊢
        simp [hmx]
      | true =>
        rw [← hrow] at h0
        simp [hfw] at h0

theorem C1_invariant_preserved_witness :
    CacheInv ([] : Cache) ∧ FactInv (resolveDomain O0 0 "t" "b.com" []).1 :=
  ⟨fun p hp => absurd hp (List.not_mem_nil p),
   (C1_invariant_preserved O0 0 "t" "b.com" "x@b.com" []
     (fun p hp => absurd hp (List.not_mem_nil p))).1⟩

/-- Claim C2: on a cache miss the Registration Lookup runs first; when it
returns false the MX lookup never runs and the fresh fact is
`{whois_alive: false, mx_exists: false}`; when it returns true the MX lookup
runs exactly once and its boolean result becomes `mx_exists`. -/
theorem C2_miss_short_circuit (O : Oracles) (now : Int) (nowStr : String)
    (d : String) (cache : Cache) (h : lookupCache cache d = none) :
    (resolveDomain O now nowStr d cache).1.whois_alive
        = _whois_domain O.parseIso now (O.whoisResp d) ∧
    (_whois_domain O.parseIso now (O.whoisResp d) = false →
      (resolveDomain O now nowStr d cache).1
          = { whois_alive := false, mx_exists := false, checked_at := some nowStr } ∧
      (resolveDomain O now nowStr d cache).2.2 = [LookupEvent.whoisCall d]) ∧
    (_whois_domain O.parseIso now (O.whoisResp d) = true →
      (resolveDomain O now nowStr d cache).2.2
          = [LookupEvent.whoisCall d, LookupEvent.mxCall d] ∧
      (resolveDomain O now nowStr d cache).1.mx_exists
          = _mx_queries_domain (O.mxAnswers d)) := by
  refine ⟨?_, ?_, ?_⟩
  · simp [resolveDomain, h]
  · intro hw
    simp [resolveDomain, h, hw]
  · intro hw
    simp [resolveDomain, h, hw]

theorem C2_miss_short_circuit_witness :
    lookupCache [] "b.com" = none ∧
    (resolveDomain O0 0 "t" "b.com" []).1
        = { whois_alive := false, mx_exists := false, checked_at := some "t" } ∧
    (resolveDomain O0 0 "t" "b.com" []).2.2 = [LookupEvent.whoisCall "b.com"] :=
  ⟨rfl,
   ((C2_miss_short_circuit O0 0 "t" "b.com" [] rfl).2.1 (by decide)).1,
   ((C2_miss_short_circuit O0 0 "t" "b.com" [] rfl).2.1 (by decide)).2⟩

/-- Claim C3: on a cache hit the Orchestrator performs no lookup (empty
trace), leaves the cache untouched (so the entry and its `checked_at` are
unchanged), and returns exactly the cached fact. -/
theorem C3_cache_hit_frame (O : Oracles) (now : Int) (nowStr : String)
    (d : String) (cache : Cache) (f : DomainFact)
    (h : lookupCache cache d = some f) :
    resolveDomain O now nowStr d cache = (f, cache, []) := by
  simp [resolveDomain, h]

theorem C3_cache_hit_frame_witness :
    lookupCache [("b.com", ⟨true, true, some "2024"⟩)] "b.com"
        = some ⟨true, true, some "2024"⟩ ∧
    resolveDomain O0 0 "t" "b.com" [("b.com", ⟨true, true, some "2024"⟩)]
        = (⟨true, true, some "2024"⟩, [("b.com", ⟨true, true, some "2024"⟩)], []) :=
  ⟨by decide,
   C3_cache_hit_frame O0 0 "t" "b.com" [("b.com", ⟨true, true, some "2024"⟩)]
     ⟨true, true, some "2024"⟩ (by decide)⟩

/-- Claim C4: resolving the same domain twice in one run yields the same fact
both times, performs no lookup and no cache change on the second resolve, and
over both resolves each external lookup runs at most once for that domain. -/
theorem C4_idempotent (O : Oracles) (now : Int) (nowStr : String)
    (d : String) (cache : Cache) :
    (resolveDomain O now nowStr d (resolveDomain O now nowStr d cache).2.1).1
        = (resolveDomain O now nowStr d cache).1 ∧
    (resolveDomain O now nowStr d (resolveDomain O now nowStr d cache).2.1).2.1
        = (resolveDomain O now nowStr d cache).2.1 ∧
    (resolveDomain O now nowStr d (resolveDomain O now nowStr d cache).2.1).2.2 = [] ∧
    countEv (LookupEvent.whoisCall d)
      ((resolveDomain O now nowStr d cache).2.2 ++
        (resolveDomain O now nowStr d (resolveDomain O now nowStr d cache).2.1).2.2) ≤ 1 ∧
    countEv (LookupEvent.mxCall d)
      ((resolveDomain O now nowStr d cache).2.2 ++
        (resolveDomain O now nowStr d (resolveDomain O now nowStr d cache).2.1).2.2) ≤ 1 := by
  cases h : lookupCache cache d with
  | some f => simp [resolveDomain, h, countEv]
  | none =>
    cases hw : _whois_domain O.parseIso now (O.whoisResp d) <;>
      simp [resolveDomain, h, hw, lookupCache_dictInsert_self, countEv, List.filter]

theorem savedCheckedAt_ne_empty (c : Option String) (nowStr : String)
    (h : nowStr ≠ "") : savedCheckedAt c nowStr ≠ "" := by
  cases c with
  | none => exact h
  | some s =>
    by_cases hs : s = ""
    · have he : savedCheckedAt (some s) nowStr = nowStr := by simp [savedCheckedAt, hs]
      rw [he]
      exact h
    · have he : savedCheckedAt (some s) nowStr = s := by simp [savedCheckedAt, hs]
      rw [he]
      exact hs

/-- Claim C5: `_whois_domain` returns true iff the whois call succeeded, an
expiration datetime was extracted by `_extract_expiration_date` (first element
of a candidate list; strings parsed as ISO-8601 after replacing `"Z"` with
`"+00:00"`), and its UTC instant — a timezone-less value being read as UTC —
is strictly after `now`; a failed query (`resp = none`) or failed extraction
gives false, and the function is total, so no exception escapes. -/
theorem C5_registration_fail_closed (parseIso : String → Option PyDatetime)
    (now : Int) (resp : Option PyVal) :
    (_whois_domain parseIso now resp = true ↔
      ∃ w exp, resp = some w ∧ _extract_expiration_date parseIso w = some exp ∧
        pyInstant (pyNormalizeUtc exp) > now) ∧
    (resp = none → _whois_domain parseIso now resp = false) ∧
    (∀ exp, _extract_expiration_date parseIso (PyVal.dt exp) = some exp) ∧
    (∀ exp rest,
      _extract_expiration_date parseIso (PyVal.list (PyVal.dt exp :: rest)) = some exp) ∧
    (∀ s, s ≠ "" → _extract_expiration_date parseIso (PyVal.str s)
        = parseIso (s.replace "Z" "+00:00")) ∧
    (∀ exp, exp.tz = none → pyInstant (pyNormalizeUtc exp) = exp.naive) := by
  refine ⟨?_, ?_, ?_, ?_, ?_, ?_⟩
  · cases resp with
    | none => simp [_whois_domain]
    | some w =>
      cases he : _extract_expiration_date parseIso w with
      | none => simp [_whois_domain, he]
      | some exp => simp [_whois_domain, he]
  · intro h
    rw [h]
    rfl
  · intro exp
    rfl
  · intro exp rest
    rfl
  · intro s hs
    simp [_extract_expiration_date, pyTruthy, hs]
  · intro exp h
    simp [pyNormalizeUtc, pyInstant, h]

theorem C5_registration_fail_closed_witness :
    _whois_domain (fun _ => none) 0 none = false ∧
    _extract_expiration_date (fun _ => none) (PyVal.str "2024Z") = none ∧
    pyInstant (pyNormalizeUtc ⟨7, none⟩) = 7 :=
  ⟨(C5_registration_fail_closed (fun _ => none) 0 none).2.1 rfl,
   ((C5_registration_fail_closed (fun _ => none) 0 none).2.2.2.2.1 "2024Z"
     (by decide)).trans rfl,
   (C5_registration_fail_closed (fun _ => none) 0 none).2.2.2.2.2 ⟨7, none⟩ rfl⟩

/-- Claim C10: when saving, a fact whose `checked_at` is falsy (`None` or
`""`, e.g. loaded from a snapshot whose `checked_at` column is missing or
empty) is written with the current UTC instant `nowStr`; no written row has an
empty `checked_at`, and a non-empty stored `checked_at` is written verbatim. -/
theorem C10_checked_at_backfill (cache : Cache) (nowStr : String) (h : nowStr ≠ "") :
    (∀ row ∈ _save_domain_cache cache nowStr, ∃ s, row.checked_at = some s ∧ s ≠ "") ∧
    (∀ p : String × DomainFact, p.2.checked_at = none ∨ p.2.checked_at = some "" →
      (saveRow nowStr p).checked_at = some nowStr) ∧
    (∀ p : String × DomainFact, ∀ t, p.2.checked_at = some t → t ≠ "" →
      (saveRow nowStr p).checked_at = some t) := by
  refine ⟨?_, ?_, ?_⟩
  · intro row hrow
    simp only [_save_domain_cache, List.mem_map] at hrow
    obtain ⟨p, _, hpr⟩ := hrow
    refine ⟨savedCheckedAt p.2.checked_at nowStr, ?_, savedCheckedAt_ne_empty _ _ h⟩
    rw [← hpr]
    rfl
  · intro p hp
    rcases hp with hp | hp <;> simp [saveRow, savedCheckedAt, hp]
  · intro p t hp ht
    simp [saveRow, savedCheckedAt, hp, ht]

theorem C10_checked_at_backfill_witness :
    ("2024-06-01T00:00:00+00:00" : String) ≠ "" ∧
    (saveRow "2024-06-01T00:00:00+00:00" ("a.com", ⟨true, true, none⟩)).checked_at
        = some "2024-06-01T00:00:00+00:00" ∧
    (saveRow "2024-06-01T00:00:00+00:00" ("b.org", ⟨true, false, some "old"⟩)).checked_at
        = some "old" :=
  ⟨by decide,
   (C10_checked_at_backfill [] "2024-06-01T00:00:00+00:00" (by decide)).2.1
     ("a.com", ⟨true, true, none⟩) (Or.inl rfl),
   (C10_checked_at_backfill [] "2024-06-01T00:00:00+00:00" (by decide)).2.2
     ("b.org", ⟨true, false, some "old"⟩) "old" rfl (by decide)⟩

theorem char_contains_iff (l : List Char) (c : Char) : l.contains c = true ↔ c ∈ l := by
  simp [List.contains, List.elem_iff]

theorem emailChar_spec (c : Char) : emailChar c = true ↔ c ≠ '@' ∧ pyWs c = false := by
  simp [emailChar, bne_iff_ne, Bool.and_eq_true, Bool.not_eq_true']

theorem splitFirst_eq_some (ch : Char) :
    ∀ l a b, splitFirst ch l = some (a, b) → l = a ++ ch :: b ∧ ch ∉ a := by
  intro l
  induction l with
  | nil => intro a b h; simp [splitFirst] at h
  | cons c cs ih =>
    intro a b h
    by_cases hc : c = ch
    · rw [splitFirst, if_pos hc] at h
      obtain ⟨ha, hb⟩ := Prod.mk.injEq .. ▸ Option.some.injEq .. ▸ h
      subst ha hb hc
      exact ⟨rfl, List.not_mem_nil c⟩
    · rw [splitFirst, if_neg hc] at h
      cases hs : splitFirst ch cs with
      | none => rw [hs] at h; simp at h
      | some p =>
        rw [hs] at h
        simp only [Option.some.injEq, Prod.mk.injEq] at h
        obtain ⟨hp, hq⟩ := ih p.1 p.2 (by rw [hs])
        refine ⟨?_, ?_⟩
        · rw [← h.1, ← h.2, hp]
          rfl
        · rw [← h.1]
          intro hm
          rcases List.mem_cons.mp hm with hm | hm
          · exact hc hm.symm
          · exact hq hm

theorem splitFirst_append (ch : Char) :
    ∀ a b : List Char, ch ∉ a → splitFirst ch (a ++ ch :: b) = some (a, b) := by
  intro a
  induction a with
  | nil =>
    intro b _
    simp [splitFirst]
  | cons c t ih =>
    intro b h
    have hc : ¬ c = ch := fun he => h (by rw [he]; exact List.mem_cons_self ch t)
    rw [List.cons_append, splitFirst, if_neg hc,
      ih b (fun hm => h (List.mem_cons_of_mem c hm))]

theorem dot_in_dropLast_iff (t : List Char) :
    '.' ∈ t.dropLast ↔ ∃ m r : List Char, t = m ++ '.' :: r ∧ r ≠ [] := by
  constructor
  · intro h
    have ht : t ≠ [] := by
      intro he
      rw [he] at h
      simp at h
    obtain ⟨m, r', hsplit⟩ := List.append_of_mem h
    refine ⟨m, r' ++ [t.getLast ht], ?_, by simp⟩
    calc t = t.dropLast ++ [t.getLast ht] := (List.dropLast_concat_getLast ht).symm
    _ = (m ++ '.' :: r') ++ [t.getLast ht] := by rw [hsplit]
    _ = m ++ '.' :: (r' ++ [t.getLast ht]) := by simp
  · rintro ⟨m, r, ht, hr⟩
    rw [ht, List.dropLast_append_cons, List.dropLast_cons_of_ne_nil hr]
    exact List.mem_append_right m (List.mem_cons_self '.' r.dropLast)

theorem hasInteriorDot_iff (l : List Char) :
    hasInteriorDot l = true ↔
      ∃ m r : List Char, l = m ++ '.' :: r ∧ m ≠ [] ∧ r ≠ [] := by
  cases l with
  | nil =>
    constructor
    · intro h
      simp [hasInteriorDot] at h
    · rintro ⟨m, r, hmr, -, -⟩
      exact absurd hmr.symm (by simp)
  | cons c t =>
    have hred : hasInteriorDot (c :: t) = (t.dropLast).contains '.' := rfl
    rw [hred, char_contains_iff, dot_in_dropLast_iff]
    constructor
    · rintro ⟨m, r, ht, hr⟩
      exact ⟨c :: m, r, by rw [ht]; rfl, List.cons_ne_nil c m, hr⟩
    · rintro ⟨m, r, hmr, hm, hr⟩
      cases m with
      | nil => exact absurd rfl hm
      | cons x m0 =>
        rw [List.cons_append] at hmr
        obtain ⟨-, ht⟩ := List.cons.injEq .. ▸ hmr
        exact ⟨m0, r, ht, hr⟩

theorem matchEmail_iff_pattern (s : String) :
    matchEmail s = true ↔ EmailPattern s := by
  unfold matchEmail
  cases hs : splitFirst '@' s.data with
  | none =>
    simp only [Bool.false_eq_true, false_iff]
    rintro ⟨l, m, r, hd, -, -, -, hcl, -, -⟩
    have hnl : '@' ∉ l := fun hm => by
      have := (emailChar_spec '@').mp (hcl '@' hm)
      exact this.1 rfl
    rw [hd, splitFirst_append '@' l (m ++ '.' :: r) hnl] at hs
    exact Option.noConfusion hs
  | some pr =>
    obtain ⟨loc, rest⟩ := pr
    obtain ⟨hd, hnl⟩ := splitFirst_eq_some '@' s.data loc rest hs
    simp only [Bool.and_eq_true, Bool.not_eq_true', List.isEmpty_eq_false,
      List.all_eq_true]
    constructor
    · rintro ⟨⟨⟨⟨hln, hlc⟩, hrn⟩, hrc⟩, hdot⟩
      obtain ⟨m, r, hrest, hm, hr⟩ := (hasInteriorDot_iff rest).mp hdot
      refine ⟨loc, m, r, by rw [hd, hrest], hln, hm, hr, hlc, ?_, ?_⟩
      · intro c hc
        exact hrc c (by rw [hrest]; exact List.mem_append_left _ hc)
      · intro c hc
        exact hrc c (by rw [hrest]; exact List.mem_append_right _ (List.mem_cons_of_mem '.' hc))
    · rintro ⟨l, m, r, hd2, hl, hm, hr, hcl, hcm, hcr⟩
      have hnl2 : '@' ∉ l := fun hmem => ((emailChar_spec '@').mp (hcl '@' hmem)).1 rfl
      have hsplit2 : splitFirst '@' s.data = some (l, m ++ '.' :: r) := by
        rw [hd2]
        exact splitFirst_append '@' l (m ++ '.' :: r) hnl2
      rw [hs] at hsplit2
      obtain ⟨hle, hre⟩ := Prod.mk.injEq .. ▸ Option.some.injEq .. ▸ hsplit2
      subst hle
      refine ⟨⟨⟨⟨hl, hcl⟩, ?_⟩, ?_⟩, ?_⟩
      · rw [hre]
        simp
      · intro c hc
        rw [hre] at hc
        rcases List.mem_append.mp hc with hc | hc
        · exact hcm c hc
        · rcases List.mem_cons.mp hc with hc | hc
          · rw [hc]; rfl
          · exact hcr c hc
      · rw [hre]
        exact (hasInteriorDot_iff (m ++ '.' :: r)).mpr ⟨m, r, rfl, hm, hr⟩

theorem emailChar_not_ws (c : Char) (h1 : emailChar c = true) (h2 : pyWs c = true) :
    False := by
  have hw := ((emailChar_spec c).mp h1).2
  rw [hw] at h2
  exact Bool.noConfusion h2

/-- Claim C6: `_is_valid_email` strips surrounding whitespace, rejects the
empty result, and accepts exactly the strings matching the whole-string
pattern `[^@\s]+ '@' [^@\s]+ '.' [^@\s]+` (`EmailPattern`); consequently it
rejects any address whose trimmed form has no `@`, contains whitespace, or
whose domain part (after the `@`) has no `'.'`. -/
theorem C6_syntax_validator (a : String) :
    (_is_valid_email a = true ↔ EmailPattern (pyStrip a)) ∧
    (pyStrip a = "" → _is_valid_email a = false) ∧
    ((∃ c ∈ (pyStrip a).data, pyWs c = true) → _is_valid_email a = false) ∧
    ((pyStrip a).data.contains '@' = false → _is_valid_email a = false) ∧
    (∀ loc rest, splitFirst '@' (pyStrip a).data = some (loc, rest) →
      rest.contains '.' = false → _is_valid_email a = false) := by
  have hmain : _is_valid_email a = true ↔ EmailPattern (pyStrip a) := by
    by_cases he : pyStrip a = ""
    · simp only [_is_valid_email, he, if_pos, Bool.false_eq_true, false_iff]
      rintro ⟨l, m, r, hd, -, -, -, -, -, -⟩
      have hnil : ([] : List Char) = l ++ '@' :: (m ++ '.' :: r) := hd
      exact absurd hnil.symm (by simp)
    · rw [show _is_valid_email a = matchEmail (pyStrip a) by
        simp [_is_valid_email, he]]
      exact matchEmail_iff_pattern (pyStrip a)
  refine ⟨hmain, ?_, ?_, ?_, ?_⟩
  · intro he
    simp [_is_valid_email, he]
  · rintro ⟨c, hc, hw⟩
    cases hb : _is_valid_email a with
    | false => rfl
    | true =>
      exfalso
      obtain ⟨l, m, r, hd, -, -, -, hcl, hcm, hcr⟩ := hmain.mp hb
      rw [hd] at hc
      rcases List.mem_append.mp hc with hc | hc
      · exact emailChar_not_ws c (hcl c hc) hw
      · rcases List.mem_cons.mp hc with hc | hc
        · rw [hc] at hw
          exact absurd hw (by decide)
        · rcases List.mem_append.mp hc with hc | hc
          · exact emailChar_not_ws c (hcm c hc) hw
          · rcases List.mem_cons.mp hc with hc | hc
            · rw [hc] at hw
              exact absurd hw (by decide)
            · exact emailChar_not_ws c (hcr c hc) hw
  · intro hno
    cases hb : _is_valid_email a with
    | false => rfl
    | true =>
      exfalso
      obtain ⟨l, m, r, hd, -, -, -, -, -, -⟩ := hmain.mp hb
      have hmem : '@' ∈ (pyStrip a).data := by
        rw [hd]
        exact List.mem_append_right l (List.mem_cons_self '@' (m ++ '.' :: r))
      rw [(char_contains_iff _ '@').mpr hmem] at hno
      exact Bool.noConfusion hno
  · intro loc rest hsp hdot
    cases hb : _is_valid_email a with
    | false => rfl
    | true =>
      exfalso
      obtain ⟨l, m, r, hd, -, -, -, hcl, -, -⟩ := hmain.mp hb
      have hnl : '@' ∉ l := fun hm => ((emailChar_spec '@').mp (hcl '@' hm)).1 rfl
      have hsp2 : splitFirst '@' (pyStrip a).data = some (l, m ++ '.' :: r) := by
        rw [hd]
        exact splitFirst_append '@' l (m ++ '.' :: r) hnl
      rw [hsp] at hsp2
      obtain ⟨-, hre⟩ := Prod.mk.injEq .. ▸ Option.some.injEq .. ▸ hsp2
      have hmem : '.' ∈ rest := by
        rw [hre]
        exact List.mem_append_right m (List.mem_cons_self '.' r)
      rw [(char_contains_iff rest '.').mpr hmem] at hdot
      exact Bool.noConfusion hdot

theorem C6_syntax_validator_witness :
    pyStrip "  " = "" ∧ _is_valid_email "  " = false ∧
    (∃ c ∈ (pyStrip "a b@c.d").data, pyWs c = true) ∧
    _is_valid_email "a b@c.d" = false ∧
    (pyStrip "ab.cd").data.contains '@' = false ∧
    _is_valid_email "ab.cd" = false :=
  ⟨by decide, (C6_syntax_validator "  ").2.1 (by decide),
   by decide, (C6_syntax_validator "a b@c.d").2.2.1 (by decide),
   by decide, (C6_syntax_validator "ab.cd").2.2.2.1 (by decide)⟩

theorem boolTo10_decode (b : Bool) : decide (boolTo10 b = "1") = b := by
  cases b <;> decide

theorem loadStep_saveRow (acc : Cache) (nowStr : String) (p : String × DomainFact)
    (hne : p.1 ≠ "") (hnorm : pyLower (pyStrip p.1) = p.1)
    (hfresh : ∀ q ∈ acc, q.1 ≠ p.1) :
    loadStep acc (saveRow nowStr p) = acc ++ [(p.1, roundFact p.2 nowStr)] := by
  unfold loadStep saveRow
  simp only [Option.getD_some]
  rw [hnorm, if_neg hne, boolTo10_decode, boolTo10_decode]
  exact dictInsert_fresh acc p.1 _ hfresh

theorem load_save_aux (nowStr : String) :
    ∀ cache acc : Cache,
    (∀ p ∈ cache, p.1 ≠ "" ∧ pyLower (pyStrip p.1) = p.1) →
    (∀ p ∈ cache, ∀ q ∈ acc, q.1 ≠ p.1) →
    List.Pairwise (fun p q => p.1 ≠ q.1) cache →
    List.foldl loadStep acc (cache.map (saveRow nowStr)) =
      acc ++ cache.map (fun p => (p.1, roundFact p.2 nowStr)) := by
  intro cache
  induction cache with
  | nil =>
    intro acc _ _ _
    simp
  | cons p rest ih =>
    intro acc hkeys hfresh hpair
    have hp := hkeys p (List.mem_cons_self p rest)
    have hk : ∀ q ∈ rest, q.1 ≠ "" ∧ pyLower (pyStrip q.1) = q.1 :=
      fun q hq => hkeys q (List.mem_cons_of_mem p hq)
    have hpcons := List.pairwise_cons.mp hpair
    have hf : ∀ q ∈ rest, ∀ q' ∈ acc ++ [(p.1, roundFact p.2 nowStr)], q'.1 ≠ q.1 := by
      intro q hq q' hq'
      rcases List.mem_append.mp hq' with h | h
      · exact hfresh q (List.mem_cons_of_mem p hq) q' h
      · have hq'e : q' = (p.1, roundFact p.2 nowStr) := by simpa using h
        rw [hq'e]
        exact hpcons.1 q hq
    rw [List.map_cons, List.foldl_cons,
      loadStep_saveRow acc nowStr p hp.1 hp.2
        (fun q hq => hfresh p (List.mem_cons_self p rest) q hq),
      ih (acc ++ [(p.1, roundFact p.2 nowStr)]) hk hf hpcons.2]
    simp

/-- Claim C7: saving a cache whose keys are non-empty and already
stripped/lower-cased (so the load normalisation is the identity) and loading
the rows back reproduces the cache exactly up to `checked_at` formatting:
every domain and both booleans round-trip through the `"1"`/`"0"` encoding,
entry for entry and in order. -/
theorem C7_save_load_roundtrip (cache : Cache) (nowStr : String)
    (hkeys : ∀ p ∈ cache, p.1 ≠ "" ∧ pyLower (pyStrip p.1) = p.1)
    (hnodup : List.Pairwise (fun p q => p.1 ≠ q.1) cache) :
    _load_domain_cache (_save_domain_cache cache nowStr)
      = cache.map (fun p => (p.1, roundFact p.2 nowStr)) ∧
    (_load_domain_cache (_save_domain_cache cache nowStr)).map
        (fun p => (p.1, p.2.whois_alive, p.2.mx_exists))
      = cache.map (fun p => (p.1, p.2.whois_alive, p.2.mx_exists)) := by
  have hmain : _load_domain_cache (_save_domain_cache cache nowStr)
      = cache.map (fun p => (p.1, roundFact p.2 nowStr)) := by
    unfold _load_domain_cache _save_domain_cache
    rw [load_save_aux nowStr cache [] hkeys
      (fun p _ q hq => absurd hq (List.not_mem_nil q)) hnodup]
    simp
  refine ⟨hmain, ?_⟩
  rw [hmain, List.map_map]
  rfl

theorem C7_save_load_roundtrip_witness :
    (∀ p ∈ ([("a.com", ⟨true, false, some "s"⟩),
             ("b.org", ⟨false, false, none⟩)] : Cache),
      p.1 ≠ "" ∧ pyLower (pyStrip p.1) = p.1) ∧
    (_load_domain_cache (_save_domain_cache
        [("a.com", ⟨true, false, some "s"⟩), ("b.org", ⟨false, false, none⟩)] "NOW")).map
        (fun p => (p.1, p.2.whois_alive, p.2.mx_exists))
      = [("a.com", true, false), ("b.org", false, false)] :=
  ⟨by decide,
   ((C7_save_load_roundtrip
      [("a.com", ⟨true, false, some "s"⟩), ("b.org", ⟨false, false, none⟩)] "NOW"
      (by decide) (by decide)).2).trans rfl⟩
